import Mathlib

/-!
Shallow embedding of the return-reconciliation core of the laundry-tracking
backend (`backend/src/store.ts`), covering the data model (`types.ts`) and the
mutation operations `createShipment`, `updateShipmentReturns`,
`applyProductReturns` and `deleteProduct`.

Modelling conventions:
* Firestore is modelled as explicit lists of documents; a Firestore write is
  reflected by returning the new document(s), and the set of documents written
  by `applyProductReturns` is returned as the `touched` id list.
* JS numbers holding quantities are modelled as `Int` (the HTTP layer validates
  them as integers); ISO date/timestamp strings are `String` and JS
  `localeCompare`/`>` comparisons become the lexicographic `String` order.
* `new Date().toISOString()` is a `now : String` parameter; the normalisation
  `new Date(occurredAt).toISOString()` is the identity on the modelled inputs.
* `Product.pricePerUnit` (a JS float) is omitted: it is read by no modelled
  operation.
-/

namespace Lavanderia

structure Product where
  id : String
  ownerId : String
  name : String
  category : Option String
deriving DecidableEq, Repr

structure ShipmentItem where
  id : String
  productId : String
  quantitySent : Int
  quantityReturned : Int
deriving DecidableEq, Repr

structure Shipment where
  id : String
  ownerId : String
  sentAt : String
  expectedReturnAt : Option String
  notes : Option String
  items : List ShipmentItem
  itemProductIds : List String
  createdAt : String
  updatedAt : String
deriving DecidableEq, Repr

structure ShipmentItemInput where
  productId : String
  quantitySent : Int
  quantityReturned : Option Int
deriving DecidableEq, Repr

structure ShipmentInput where
  sentAt : String
  expectedReturnAt : Option String
  notes : Option String
  items : List ShipmentItemInput
deriving DecidableEq, Repr

structure ShipmentReturnUpdate where
  lineId : String
  quantityReturned : Int
deriving DecidableEq, Repr

structure ProductReturnRequest where
  productId : String
  quantity : Int
  occurredAt : Option String
  notes : Option String
deriving DecidableEq, Repr

structure ProductReturnAllocation where
  shipmentId : String
  lineId : String
  applied : Int
  pendingAfter : Int
deriving DecidableEq, Repr

structure ProductReturnResult where
  productId : String
  requested : Int
  applied : Int
  remaining : Int
  allocations : List ProductReturnAllocation
  notes : Option String
  warning : Option String
deriving DecidableEq, Repr

/-- The pending quantity of a line as the code computes it:
`Math.max(quantitySent - quantityReturned, 0)`. -/
def pendingOf (item : ShipmentItem) : Int :=
  max (item.quantitySent - item.quantityReturned) 0

/-- Code-point lexicographic `≤` on character lists.  This is what JS
`localeCompare` computes on the ASCII ISO-8601 date/timestamp strings the
system stores, written as a structurally recursive `Bool` function so that
concrete instances evaluate. -/
def strLeB : List Char → List Char → Bool
  | [], _ => true
  | _ :: _, [] => false
  | a :: as, b :: bs =>
    if a.toNat < b.toNat then true
    else if b.toNat < a.toNat then false
    else strLeB as bs

/-- `a.localeCompare(b) <= 0` on the modelled strings. -/
def strLe (a b : String) : Bool :=
  strLeB a.data b.data

/-- `latestTimestamp` from `store.ts`, restricted to the always-both-present
case used by `applyProductReturns`: `a.localeCompare(b) >= 0 ? a : b`. -/
def latestTimestamp (a b : String) : String :=
  if strLe b a then a else b

/-- The warning strings of `applyProductReturns`. -/
def warnNoShipment : String := "Nenhum envio encontrado para este produto"

def warnProductNotFound : String := "Produto nao encontrado ou nao pertence ao usuario"

def warnNothingApplied : String := "Nenhuma peca pendente para retorno"

def warnPartial : String :=
  "Parte da quantidade solicitada nao foi aplicada por falta de saldo pendente"

/-- `fetchProductsByIds` (store.ts:74): looks the requested ids up in the
whole `products` collection by document id.  Note there is no `ownerId`
filter in the query. -/
def fetchProductsByIds (store : List Product) (ids : List String) : List Product :=
  store.filter (fun p => p.id ∈ ids)

/-- `products.has(id)` on the map built from `fetchProductsByIds`. -/
def hasProduct (products : List Product) (pid : String) : Bool :=
  products.any (fun p => p.id == pid)

/-- Item construction inside `createShipment` (store.ts:401): the initial
`quantityReturned` is `Math.min(Math.max(item.quantityReturned ?? 0, 0), item.quantitySent)`. -/
def createShipmentItem (newId : String) (input : ShipmentItemInput) : ShipmentItem :=
  { id := newId
    productId := input.productId
    quantitySent := input.quantitySent
    quantityReturned := min (max (input.quantityReturned.getD 0) 0) input.quantitySent }

/-- `createShipment` (store.ts:394), with the generated document/line ids
passed in explicitly. -/
def createShipment (docId ownerId now : String) (lineIds : List String)
    (input : ShipmentInput) : Shipment :=
  let items := (lineIds.zip input.items).map (fun p => createShipmentItem p.1 p.2)
  { id := docId
    ownerId := ownerId
    sentAt := input.sentAt
    expectedReturnAt := input.expectedReturnAt
    notes := input.notes
    items := items
    itemProductIds := items.map (·.productId)
    createdAt := now
    updatedAt := now }

inductive UpdateMode where
  | set
  | increment
deriving DecidableEq, Repr

/-- Lookup in the `Map` built by
`new Map(updates.map((item) => [item.lineId, item.quantityReturned]))`:
a later entry for the same key overwrites an earlier one. -/
def updateLookup (updates : List ShipmentReturnUpdate) (lineId : String) : Option Int :=
  updates.foldl (fun acc u => if u.lineId == lineId then some u.quantityReturned else acc) none

/-- The body of `updateShipmentReturns` (store.ts:477) once the shipment has
been loaded and ownership checked: per-line clamped update plus the rebuild of
`itemProductIds` and the fresh `updatedAt`. -/
def updateShipmentReturnsCore (now : String) (s : Shipment)
    (updates : List ShipmentReturnUpdate) (mode : UpdateMode := UpdateMode.set) : Shipment :=
  let items := s.items.map (fun item =>
    match updateLookup updates item.id with
    | none => item
    | some v =>
      let requested := max v 0
      let base := if mode = UpdateMode.increment then item.quantityReturned else 0
      { item with quantityReturned := min (base + requested) item.quantitySent })
  { s with
    items := items
    itemProductIds := items.map (·.productId)
    updatedAt := now }

/-- `updateShipmentReturns` (store.ts:460): document lookup and ownership
check (`null` on a missing or cross-owner shipment), then the core update.
The TS default for `mode` is `'set'`, mirrored by the Lean default argument. -/
def updateShipmentReturns (ownerId now : String) (stored : Option Shipment)
    (updates : List ShipmentReturnUpdate) (mode : UpdateMode := UpdateMode.set) :
    Option Shipment :=
  match stored with
  | none => none
  | some s =>
    if s.ownerId = ownerId then some (updateShipmentReturnsCore now s updates mode) else none

/-- The date `listShipmentBalances` (store.ts:305) stamps on a line's
"return" movement: `shipment.updatedAt ?? shipment.sentAt`, where
`updatedAt` is always present on a mapped shipment. -/
def returnMovementOccurredAt (s : Shipment) : String :=
  s.updatedAt

/-- `deleteProduct` (store.ts:177) on the two collections: deletes the product
when it exists and is owner-matched, then for every shipment of that owner
whose `itemProductIds` contains the product id, strips the matching lines,
deleting the shipment outright when no line remains.  Returns the `boolean`
result together with the new collections. -/
def deleteProduct (id ownerId now : String) (products : List Product)
    (shipments : List Shipment) : Bool × List Product × List Shipment :=
  match products.find? (fun p => p.id == id) with
  | none => (false, products, shipments)
  | some p =>
    if p.ownerId ≠ ownerId then (false, products, shipments)
    else
      let products' := products.filter (fun q => q.id ≠ id)
      let shipments' := shipments.filterMap (fun s =>
        if s.ownerId == ownerId && s.itemProductIds.contains id then
          let filteredItems := s.items.filter (fun item => item.productId ≠ id)
          if filteredItems.isEmpty then none
          else some { s with
            items := filteredItems
            itemProductIds := filteredItems.map (·.productId)
            updatedAt := now }
        else some s)
      (true, products', shipments')

/-- One line step of the FIFO walk inside `applyProductReturns`
(store.ts:571): a line is skipped when it does not match the product, when
`remaining <= 0`, or when its pending balance is `0`; otherwise
`applied = min(pending, remaining)` is credited to the line and an allocation
is recorded. -/
def allocateLine (pid shipId : String) (remaining : Int) (item : ShipmentItem) :
    ShipmentItem × Int × Option ProductReturnAllocation :=
  if item.productId ≠ pid ∨ remaining ≤ 0 then (item, remaining, none)
  else
    let pending := pendingOf item
    if pending = 0 then (item, remaining, none)
    else
      let applied := min pending remaining
      ({ item with quantityReturned := item.quantityReturned + applied },
        remaining - applied,
        some { shipmentId := shipId, lineId := item.id, applied := applied,
               pendingAfter := pending - applied })

/-- The walk over one shipment's lines (the inner `shipment.items.map` of
store.ts:571), threading `remaining` left to right and collecting the
allocations in order. -/
def allocateItems (pid shipId : String) (remaining : Int) :
    List ShipmentItem → List ShipmentItem × Int × List ProductReturnAllocation
  | [] => ([], remaining, [])
  | item :: rest =>
    let step := allocateLine pid shipId remaining item
    let tail := allocateItems pid shipId step.2.1 rest
    (step.1 :: tail.1, tail.2.1, step.2.2.toList ++ tail.2.2)

/-- One shipment step of the walk (store.ts:565): the shipment is skipped when
`remaining <= 0`; its items, `updatedAt` (via `latestTimestamp` with the
request's effective date) and the allocation list are updated only when some
line changed (`shipmentChanged`), which is exactly when an allocation was
recorded. -/
def allocateShipment (pid eff : String) (remaining : Int) (s : Shipment) :
    Shipment × Int × List ProductReturnAllocation :=
  if remaining ≤ 0 then (s, remaining, [])
  else
    let walk := allocateItems pid s.id remaining s.items
    if walk.2.2.isEmpty then (s, walk.2.1, [])
    else
      ({ s with items := walk.1, updatedAt := latestTimestamp s.updatedAt eff },
        walk.2.1, walk.2.2)

/-- The walk over the date-ordered shipment list for one request. -/
def allocateShipments (pid eff : String) (remaining : Int) :
    List Shipment → List Shipment × Int × List ProductReturnAllocation
  | [] => ([], remaining, [])
  | s :: rest =>
    let step := allocateShipment pid eff remaining s
    let tail := allocateShipments pid eff step.2.1 rest
    (step.1 :: tail.1, tail.2.1, step.2.2 ++ tail.2.2)

/-- The ascending sort by `sentAt` of store.ts:536:
`Array.from(shipmentsMap.values()).sort((a, b) => a.sentAt.localeCompare(b.sentAt))`. -/
def sortShipments (shipments : List Shipment) : List Shipment :=
  shipments.insertionSort (fun a b => strLe a.sentAt b.sentAt = true)

/-- Processing of a single request inside `applyProductReturns`
(store.ts:544): existence check on the fetched products (note: existence
only, the product's `ownerId` is never compared with the caller), then the
FIFO walk, then the result record with its warning priority.  Returns the
mutated shipment list, the ids of the shipments changed by this request, and
the request result. -/
def processRequest (products : List Product) (now : String) (shipments : List Shipment)
    (u : ProductReturnRequest) :
    List Shipment × List String × ProductReturnResult :=
  if ¬ hasProduct products u.productId then
    (shipments, [],
      { productId := u.productId, requested := u.quantity, applied := 0,
        remaining := u.quantity, allocations := [], notes := u.notes,
        warning := some warnProductNotFound })
  else
    let eff := u.occurredAt.getD now
    let walk := allocateShipments u.productId eff (max u.quantity 0) shipments
    let appliedTotal := u.quantity - walk.2.1
    (walk.1, (walk.2.2.map (·.shipmentId)),
      { productId := u.productId, requested := u.quantity, applied := appliedTotal,
        remaining := walk.2.1, allocations := walk.2.2, notes := u.notes,
        warning :=
          if appliedTotal = 0 then some warnNothingApplied
          else if 0 < walk.2.1 then some warnPartial
          else none })

/-- The `Set.add` of `touchedShipments`: append the changed ids, keeping the
first occurrence of each. -/
def addTouched (touched : List String) (changed : List String) : List String :=
  changed.foldl (fun t i => if i ∈ t then t else t ++ [i]) touched

/-- The `updates.forEach` loop of `applyProductReturns`, threading the live
in-memory shipment list and the touched-shipment set through the requests in
list order. -/
def processRequests (products : List Product) (now : String) :
    List Shipment → List String → List ProductReturnRequest →
    List Shipment × List String × List ProductReturnResult
  | shipments, touched, [] => (shipments, touched, [])
  | shipments, touched, u :: rest =>
    let step := processRequest products now shipments u
    let tail := processRequests products now step.1 (addTouched touched step.2.1) rest
    (tail.1, tail.2.1, step.2.2 :: tail.2.2)

structure ApplyOutcome where
  results : List ProductReturnResult
  shipments : List Shipment
  touched : List String
deriving DecidableEq, Repr

/-- `applyProductReturns` (store.ts:505) on the modelled state: `productStore`
is the whole products collection, `ownerShipments` the caller's shipments as
returned by `listShipments`.  The outcome carries the per-request results,
the final in-memory (date-ordered) shipment list, and the ids of the
shipments the final batch write touches. -/
def applyProductReturns (productStore : List Product) (now ownerId : String)
    (ownerShipments : List Shipment) (updates : List ProductReturnRequest) :
    ApplyOutcome :=
  if updates.isEmpty then { results := [], shipments := ownerShipments, touched := [] }
  else if ownerShipments.isEmpty then
    { results := updates.map (fun u =>
        { productId := u.productId, requested := u.quantity, applied := 0,
          remaining := u.quantity, allocations := [], notes := u.notes,
          warning := some warnNoShipment })
      shipments := ownerShipments
      touched := [] }
  else
    let products := fetchProductsByIds productStore (updates.map (·.productId))
    let ordered := sortShipments ownerShipments
    let run := processRequests products now ordered [] updates
    { results := run.2.2, shipments := run.1, touched := run.2.1 }

/-- The clamp `Math.min(item.quantityReturned, item.quantitySent)` applied to
every line of a touched shipment just before the batch write
(store.ts:631). -/
def clampShipmentForWrite (s : Shipment) : Shipment :=
  let items := s.items.map (fun item =>
    { item with quantityReturned := min item.quantityReturned item.quantitySent })
  { s with items := items, itemProductIds := items.map (·.productId) }

/-- The documents the final batch write of `applyProductReturns` persists. -/
def persistedShipments (o : ApplyOutcome) : List Shipment :=
  (o.shipments.filter (fun s => o.touched.contains s.id)).map clampShipmentForWrite

/-- Sum of the `applied` fields of an allocation list. -/
def sumApplied (as : List ProductReturnAllocation) : Int :=
  (as.map (·.applied)).sum

/-- The data-model invariant of §3 of the spec:
`0 ≤ quantityReturned ≤ quantitySent`. -/
def itemInv (it : ShipmentItem) : Prop :=
  0 ≤ it.quantityReturned ∧ it.quantityReturned ≤ it.quantitySent

instance (it : ShipmentItem) : Decidable (itemInv it) :=
  inferInstanceAs (Decidable (0 ≤ it.quantityReturned ∧ it.quantityReturned ≤ it.quantitySent))

/-- Total pending balance of a product over a line list. -/
def itemsPending (pid : String) (items : List ShipmentItem) : Int :=
  (items.map (fun it => if it.productId = pid then pendingOf it else 0)).sum

/-- Total pending balance of a product over a shipment list. -/
def shipmentsPending (pid : String) (ss : List Shipment) : Int :=
  (ss.map (fun s => itemsPending pid s.items)).sum

/-- The clamp of the spec's wording: `clamp(x, lo, hi)`. -/
def clamp (x lo hi : Int) : Int :=
  min (max x lo) hi

/-- The part of a result list's `applied` total attributed to one product. -/
def appliedFor (pid : String) (rs : List ProductReturnResult) : Int :=
  (rs.map (fun res => if res.productId = pid then res.applied else 0)).sum

/-!  Concrete sample data, following the scenarios of §8 of the spec. -/

def sampleProduct : Product :=
  { id := "prodP", ownerId := "owner1", name := "Toalha de banho", category := none }

/-- The same document id as `sampleProduct` but owned by a different caller. -/
def foreignProduct : Product :=
  { id := "prodP", ownerId := "owner2", name := "Toalha de banho", category := none }

def sampleItemA : ShipmentItem :=
  { id := "lineA", productId := "prodP", quantitySent := 5, quantityReturned := 0 }

def sampleItemB : ShipmentItem :=
  { id := "lineB", productId := "prodP", quantitySent := 5, quantityReturned := 0 }

/-- Shipment A of the FIFO scenario, sent 2024-01-01. -/
def sampleShipA : Shipment :=
  { id := "shipA", ownerId := "owner1", sentAt := "2024-01-01",
    expectedReturnAt := none, notes := none, items := [sampleItemA],
    itemProductIds := ["prodP"], createdAt := "2024-01-01T08:00:00.000Z",
    updatedAt := "2024-01-01T08:00:00.000Z" }

/-- Shipment B of the FIFO scenario, sent 2024-01-05. -/
def sampleShipB : Shipment :=
  { id := "shipB", ownerId := "owner1", sentAt := "2024-01-05",
    expectedReturnAt := none, notes := none, items := [sampleItemB],
    itemProductIds := ["prodP"], createdAt := "2024-01-05T08:00:00.000Z",
    updatedAt := "2024-01-05T08:00:00.000Z" }

/-- A shipment holding one line for `prodP` and one for another product. -/
def sampleShipMixed : Shipment :=
  { id := "shipC", ownerId := "owner1", sentAt := "2024-02-01",
    expectedReturnAt := none, notes := none,
    items := [{ id := "lineC1", productId := "prodP", quantitySent := 4, quantityReturned := 1 },
              { id := "lineC2", productId := "prodQ", quantitySent := 2, quantityReturned := 0 }],
    itemProductIds := ["prodP", "prodQ"], createdAt := "2024-02-01T08:00:00.000Z",
    updatedAt := "2024-02-01T08:00:00.000Z" }

/-- The result `applyProductReturns` computes for a request of 7 against
shipments A and B of the FIFO scenario. -/
def sampleResult7 : ProductReturnResult :=
  { productId := "prodP", requested := 7, applied := 7, remaining := 0,
    allocations := [{ shipmentId := "shipA", lineId := "lineA", applied := 5,
                      pendingAfter := 0 },
                    { shipmentId := "shipB", lineId := "lineB", applied := 2,
                      pendingAfter := 3 }],
    notes := none, warning := none }

section StrLe

theorem strLeB_total : ∀ as bs : List Char, strLeB as bs = true ∨ strLeB bs as = true
  | [], _ => Or.inl rfl
  | _ :: _, [] => Or.inr rfl
  | a :: as, b :: bs => by
    rcases Nat.lt_trichotomy a.toNat b.toNat with h | h | h
    · exact Or.inl (by simp [strLeB, h])
    · rcases strLeB_total as bs with ih | ih
      · exact Or.inl (by simp [strLeB, h, ih])
      · exact Or.inr (by simp [strLeB, h.symm, ih])
    · exact Or.inr (by simp [strLeB, h])

theorem strLeB_trans : ∀ as bs cs : List Char,
    strLeB as bs = true → strLeB bs cs = true → strLeB as cs = true
  | [], _, _, _, _ => rfl
  | _ :: _, [], _, h, _ => by simp [strLeB] at h
  | _ :: _, _ :: _, [], _, h => by simp [strLeB] at h
  | a :: as, b :: bs, c :: cs, h₁, h₂ => by
    simp only [strLeB] at h₁ h₂ ⊢
    by_cases hab : a.toNat < b.toNat
    · by_cases hbc : b.toNat < c.toNat
      · simp [Nat.lt_trans hab hbc]
      · by_cases hcb : c.toNat < b.toNat
        · simp [hbc, hcb] at h₂
        · have hac : a.toNat < c.toNat := by omega
          simp [hac]
    · by_cases hba : b.toNat < a.toNat
      · simp [hab, hba] at h₁
      · simp [hab, hba] at h₁
        by_cases hbc : b.toNat < c.toNat
        · have hac : a.toNat < c.toNat := by omega
          simp [hac]
        · by_cases hcb : c.toNat < b.toNat
          · simp [hbc, hcb] at h₂
          · simp [hbc, hcb] at h₂
            have hac : ¬ a.toNat < c.toNat := by omega
            have hca : ¬ c.toNat < a.toNat := by omega
            simp [hac, hca]
            exact strLeB_trans as bs cs h₁ h₂

end StrLe

section AllocateLine

variable {pid sid : String} {r : Int} {item : ShipmentItem}

theorem allocateLine_of_nonpos (h : r ≤ 0) :
    allocateLine pid sid r item = (item, r, none) := by
  simp [allocateLine, h]

theorem allocateLine_of_nonmatch (h : item.productId ≠ pid) :
    allocateLine pid sid r item = (item, r, none) := by
  simp [allocateLine, h]

theorem allocateLine_frame :
    (allocateLine pid sid r item).1.id = item.id ∧
    (allocateLine pid sid r item).1.productId = item.productId ∧
    (allocateLine pid sid r item).1.quantitySent = item.quantitySent := by
  simp only [allocateLine]
  split_ifs <;> simp

theorem allocateLine_remaining_le : (allocateLine pid sid r item).2.1 ≤ r := by
  simp only [allocateLine]
  split_ifs <;> simp [pendingOf] <;> omega

theorem allocateLine_remaining_nonneg (h : 0 ≤ r) :
    0 ≤ (allocateLine pid sid r item).2.1 := by
  simp only [allocateLine]
  split_ifs <;> simp [pendingOf] <;> omega

theorem allocateLine_applied_sum :
    r - (allocateLine pid sid r item).2.1 = sumApplied (allocateLine pid sid r item).2.2.toList := by
  simp only [allocateLine]
  split_ifs <;> simp [sumApplied]

theorem allocateLine_pending :
    pendingOf (allocateLine pid sid r item).1 =
      pendingOf item - sumApplied (allocateLine pid sid r item).2.2.toList := by
  simp only [allocateLine]
  split_ifs with h₁ h₂
  · simp [sumApplied]
  · simp [sumApplied, h₂]
  · simp only [sumApplied, Option.toList_some, List.map_cons, List.map_nil, List.sum_cons,
      List.sum_nil, add_zero, pendingOf] at h₂ ⊢
    omega

theorem allocateLine_drain (hm : item.productId = pid)
    (h : 0 < (allocateLine pid sid r item).2.1) :
    pendingOf (allocateLine pid sid r item).1 = 0 := by
  simp only [allocateLine] at h ⊢
  split_ifs at h ⊢ with h₁ h₂
  · rcases h₁ with h₁ | h₁
    · exact absurd hm h₁
    · simp only at h
      omega
  · exact h₂
  · simp only [pendingOf] at h₂ h ⊢
    omega

theorem allocateLine_inv (hinv : itemInv item) :
    itemInv (allocateLine pid sid r item).1 := by
  simp only [allocateLine]
  split_ifs with h₁ h₂
  · exact hinv
  · exact hinv
  · obtain ⟨h0, hle⟩ := hinv
    push_neg at h₁
    simp only [itemInv, pendingOf] at *
    omega

theorem allocateLine_alloc_applied
    (a : ProductReturnAllocation) (ha : (allocateLine pid sid r item).2.2 = some a) :
    a.applied = min (pendingOf item) r ∧ a.pendingAfter = pendingOf item - a.applied ∧
      a.shipmentId = sid ∧ a.lineId = item.id := by
  simp only [allocateLine] at ha
  split_ifs at ha with h₁ h₂
  cases ha
  exact ⟨rfl, rfl, rfl, rfl⟩

end AllocateLine

section AllocateItems

variable {pid sid : String}

theorem allocateItems_of_nonpos :
    ∀ (r : Int), r ≤ 0 → ∀ items, allocateItems pid sid r items = (items, r, [])
  | _, _, [] => rfl
  | r, h, item :: rest => by
    simp only [allocateItems, allocateLine_of_nonpos h, allocateItems_of_nonpos r h rest]
    simp

theorem allocateItems_remaining_le :
    ∀ (r : Int) (items : List ShipmentItem), (allocateItems pid sid r items).2.1 ≤ r
  | r, [] => le_refl r
  | r, item :: rest => by
    simp only [allocateItems]
    exact le_trans (allocateItems_remaining_le _ rest) allocateLine_remaining_le

theorem allocateItems_remaining_nonneg :
    ∀ (r : Int), 0 ≤ r → ∀ items, 0 ≤ (allocateItems pid sid r items).2.1
  | _, h, [] => h
  | r, h, item :: rest => by
    simp only [allocateItems]
    exact allocateItems_remaining_nonneg _ (allocateLine_remaining_nonneg h) rest

theorem allocateItems_applied_sum :
    ∀ (r : Int) (items : List ShipmentItem),
      r - (allocateItems pid sid r items).2.1 = sumApplied (allocateItems pid sid r items).2.2
  | r, [] => by simp [allocateItems, sumApplied]
  | r, item :: rest => by
    simp only [allocateItems, sumApplied, List.map_append, List.sum_append]
    have h₁ := @allocateLine_applied_sum pid sid r item
    have h₂ := allocateItems_applied_sum (allocateLine pid sid r item).2.1 rest
    simp only [sumApplied] at h₁ h₂
    omega

theorem allocateItems_frame :
    ∀ (r : Int) (items : List ShipmentItem),
      ((allocateItems pid sid r items).1.map (·.id) = items.map (·.id)) ∧
      ((allocateItems pid sid r items).1.map (·.productId) = items.map (·.productId)) ∧
      ((allocateItems pid sid r items).1.map (·.quantitySent) = items.map (·.quantitySent))
  | r, [] => by simp [allocateItems]
  | r, item :: rest => by
    obtain ⟨f₁, f₂, f₃⟩ := @allocateLine_frame pid sid r item
    obtain ⟨g₁, g₂, g₃⟩ := allocateItems_frame (allocateLine pid sid r item).2.1 rest
    simp only [allocateItems, List.map_cons]
    exact ⟨by rw [f₁, g₁], by rw [f₂, g₂], by rw [f₃, g₃]⟩

theorem allocateItems_pending :
    ∀ (r : Int) (items : List ShipmentItem),
      itemsPending pid (allocateItems pid sid r items).1 =
        itemsPending pid items - sumApplied (allocateItems pid sid r items).2.2
  | r, [] => by simp [allocateItems, itemsPending, sumApplied]
  | r, item :: rest => by
    have hfr := (@allocateLine_frame pid sid r item).2.1
    have hp := @allocateLine_pending pid sid r item
    have ih := allocateItems_pending (allocateLine pid sid r item).2.1 rest
    simp only [allocateItems, itemsPending, List.map_cons, List.sum_cons, sumApplied,
      List.map_append, List.sum_append] at ih hp ⊢
    rw [hfr, ih]
    by_cases hm : item.productId = pid
    · simp only [hm, if_pos]
      omega
    · rw [allocateLine_of_nonmatch hm]
      simp only [hm, if_neg, not_false_iff, Option.toList_none, List.map_nil, List.sum_nil]
      omega

theorem allocateItems_pending_other {q : String} (hq : q ≠ pid) :
    ∀ (r : Int) (items : List ShipmentItem),
      itemsPending q (allocateItems pid sid r items).1 = itemsPending q items
  | r, [] => by simp [allocateItems]
  | r, item :: rest => by
    have ih := allocateItems_pending_other hq (allocateLine pid sid r item).2.1 rest
    simp only [allocateItems, itemsPending, List.map_cons, List.sum_cons] at ih ⊢
    rw [ih]
    by_cases hm : item.productId = pid
    · have hfr := (@allocateLine_frame pid sid r item).2.1
      have hne : item.productId ≠ q := by rw [hm]; exact fun h => hq h.symm
      have hp := @allocateLine_pending pid sid r item
      rw [hfr]
      simp [hne]
    · rw [allocateLine_of_nonmatch hm]

theorem allocateItems_drain :
    ∀ (r : Int) (items : List ShipmentItem), 0 < (allocateItems pid sid r items).2.1 →
      ∀ it ∈ (allocateItems pid sid r items).1, it.productId = pid → pendingOf it = 0
  | r, [], _, it, hit, _ => by cases hit
  | r, item :: rest, h, it, hit, hm => by
    simp only [allocateItems] at h hit
    rcases List.mem_cons.mp hit with hhead | htail
    · subst hhead
      have hr' : 0 < (allocateLine pid sid r item).2.1 :=
        lt_of_lt_of_le h (allocateItems_remaining_le _ rest)
      rw [(@allocateLine_frame pid sid r item).2.1] at hm
      exact allocateLine_drain hm hr'
    · exact allocateItems_drain _ rest h it htail hm

theorem allocateItems_inv :
    ∀ (r : Int) (items : List ShipmentItem), (∀ it ∈ items, itemInv it) →
      ∀ it ∈ (allocateItems pid sid r items).1, itemInv it
  | r, [], _, it, hit => by cases hit
  | r, item :: rest, hinv, it, hit => by
    simp only [allocateItems] at hit
    rcases List.mem_cons.mp hit with hhead | htail
    · subst hhead
      exact allocateLine_inv (hinv item (List.mem_cons_self _ _))
    · exact allocateItems_inv _ rest (fun x hx => hinv x (List.mem_cons_of_mem _ hx)) it htail

theorem allocateItems_alloc_ships :
    ∀ (r : Int) (items : List ShipmentItem),
      ∀ a ∈ (allocateItems pid sid r items).2.2, a.shipmentId = sid
  | r, [], a, ha => by cases ha
  | r, item :: rest, a, ha => by
    simp only [allocateItems, List.mem_append] at ha
    rcases ha with ha | ha
    · rcases ho : (allocateLine pid sid r item).2.2 with _ | a'
      · rw [ho] at ha; cases ha
      · rw [ho] at ha
        simp only [Option.toList_some, List.mem_singleton] at ha
        subst ha
        exact (allocateLine_alloc_applied a ho).2.2.1
    · exact allocateItems_alloc_ships _ rest a ha

end AllocateItems

section AllocateShipment

variable {pid eff : String} {r : Int} {s : Shipment}

theorem allocateLine_none_eq {sid : String} {item : ShipmentItem}
    (h : (allocateLine pid sid r item).2.2 = none) :
    allocateLine pid sid r item = (item, r, none) := by
  simp only [allocateLine] at h ⊢
  split_ifs at h ⊢ <;> simp_all

theorem allocateItems_nil_allocs {sid : String} :
    ∀ (r : Int) (items : List ShipmentItem), (allocateItems pid sid r items).2.2 = [] →
      allocateItems pid sid r items = (items, r, [])
  | r, [], _ => rfl
  | r, item :: rest, h => by
    simp only [allocateItems, List.append_eq_nil] at h ⊢
    obtain ⟨h₁, h₂⟩ := h
    have hn : (allocateLine pid sid r item).2.2 = none := by
      cases ho : (allocateLine pid sid r item).2.2 with
      | none => rfl
      | some a => rw [ho] at h₁; cases h₁
    have hline := allocateLine_none_eq hn
    rw [hline] at h₂ ⊢
    simp only at h₂ ⊢
    rw [allocateItems_nil_allocs r rest h₂]
    simp

theorem allocateShipment_of_nonpos (h : r ≤ 0) :
    allocateShipment pid eff r s = (s, r, []) := by
  simp [allocateShipment, h]

theorem allocateShipment_eq :
    allocateShipment pid eff r s =
      ({ s with
          items := (allocateItems pid s.id r s.items).1,
          updatedAt :=
            if (allocateItems pid s.id r s.items).2.2.isEmpty then s.updatedAt
            else latestTimestamp s.updatedAt eff },
        (allocateItems pid s.id r s.items).2.1,
        (allocateItems pid s.id r s.items).2.2) := by
  simp only [allocateShipment]
  by_cases h₁ : r ≤ 0
  · rw [if_pos h₁, allocateItems_of_nonpos r h₁]
    simp
  · rw [if_neg h₁]
    by_cases h₂ : (allocateItems pid s.id r s.items).2.2.isEmpty
    · rw [if_pos h₂, if_pos h₂]
      have hnil := @allocateItems_nil_allocs pid s.id r s.items
        (by simpa [List.isEmpty_iff] using h₂)
      rw [hnil]
    · rw [if_neg h₂, if_neg h₂]

theorem allocateShipment_remaining_le : (allocateShipment pid eff r s).2.1 ≤ r := by
  rw [allocateShipment_eq]
  exact allocateItems_remaining_le r s.items

theorem allocateShipment_remaining_nonneg (h : 0 ≤ r) :
    0 ≤ (allocateShipment pid eff r s).2.1 := by
  rw [allocateShipment_eq]
  exact allocateItems_remaining_nonneg r h s.items

theorem allocateShipment_applied_sum :
    r - (allocateShipment pid eff r s).2.1 = sumApplied (allocateShipment pid eff r s).2.2 := by
  rw [allocateShipment_eq]
  exact allocateItems_applied_sum r s.items

theorem allocateShipment_fields :
    (allocateShipment pid eff r s).1.id = s.id ∧
    (allocateShipment pid eff r s).1.ownerId = s.ownerId ∧
    (allocateShipment pid eff r s).1.sentAt = s.sentAt ∧
    (allocateShipment pid eff r s).1.createdAt = s.createdAt := by
  rw [allocateShipment_eq]
  exact ⟨rfl, rfl, rfl, rfl⟩

theorem allocateShipment_pending :
    itemsPending pid (allocateShipment pid eff r s).1.items =
      itemsPending pid s.items - sumApplied (allocateShipment pid eff r s).2.2 := by
  rw [allocateShipment_eq]
  exact allocateItems_pending r s.items

theorem allocateShipment_pending_other {q : String} (hq : q ≠ pid) :
    itemsPending q (allocateShipment pid eff r s).1.items = itemsPending q s.items := by
  rw [allocateShipment_eq]
  exact allocateItems_pending_other hq r s.items

theorem allocateShipment_drain (h : 0 < (allocateShipment pid eff r s).2.1) :
    ∀ it ∈ (allocateShipment pid eff r s).1.items, it.productId = pid → pendingOf it = 0 := by
  rw [allocateShipment_eq] at h ⊢
  exact allocateItems_drain r s.items h

theorem allocateShipment_inv (hinv : ∀ it ∈ s.items, itemInv it) :
    ∀ it ∈ (allocateShipment pid eff r s).1.items, itemInv it := by
  rw [allocateShipment_eq]
  exact allocateItems_inv r s.items hinv

end AllocateShipment

section AllocateShipments

variable {pid eff : String}

theorem allocateShipments_of_nonpos :
    ∀ (r : Int), r ≤ 0 → ∀ ss, allocateShipments pid eff r ss = (ss, r, [])
  | _, _, [] => rfl
  | r, h, s :: rest => by
    simp only [allocateShipments, allocateShipment_of_nonpos h,
      allocateShipments_of_nonpos r h rest]
    simp

theorem allocateShipments_remaining_le :
    ∀ (r : Int) (ss : List Shipment), (allocateShipments pid eff r ss).2.1 ≤ r
  | r, [] => le_refl r
  | r, s :: rest => by
    simp only [allocateShipments]
    exact le_trans (allocateShipments_remaining_le _ rest) allocateShipment_remaining_le

theorem allocateShipments_remaining_nonneg :
    ∀ (r : Int), 0 ≤ r → ∀ ss, 0 ≤ (allocateShipments pid eff r ss).2.1
  | _, h, [] => h
  | r, h, s :: rest => by
    simp only [allocateShipments]
    exact allocateShipments_remaining_nonneg _ (allocateShipment_remaining_nonneg h) rest

theorem allocateShipments_applied_sum :
    ∀ (r : Int) (ss : List Shipment),
      r - (allocateShipments pid eff r ss).2.1 = sumApplied (allocateShipments pid eff r ss).2.2
  | r, [] => by simp [allocateShipments, sumApplied]
  | r, s :: rest => by
    simp only [allocateShipments, sumApplied, List.map_append, List.sum_append]
    have h₁ := @allocateShipment_applied_sum pid eff r s
    have h₂ := allocateShipments_applied_sum (allocateShipment pid eff r s).2.1 rest
    simp only [sumApplied] at h₁ h₂
    omega

theorem allocateShipments_append :
    ∀ (r : Int) (pre post : List Shipment),
      allocateShipments pid eff r (pre ++ post) =
        ((allocateShipments pid eff r pre).1 ++
            (allocateShipments pid eff (allocateShipments pid eff r pre).2.1 post).1,
          (allocateShipments pid eff (allocateShipments pid eff r pre).2.1 post).2.1,
          (allocateShipments pid eff r pre).2.2 ++
            (allocateShipments pid eff (allocateShipments pid eff r pre).2.1 post).2.2)
  | r, [], post => by simp [allocateShipments]
  | r, s :: pre, post => by
    simp only [List.cons_append, allocateShipments, List.append_eq]
    rw [allocateShipments_append (allocateShipment pid eff r s).2.1 pre post]
    simp [List.append_assoc]

theorem allocateShipments_drain :
    ∀ (r : Int) (ss : List Shipment), 0 < (allocateShipments pid eff r ss).2.1 →
      ∀ s ∈ (allocateShipments pid eff r ss).1, ∀ it ∈ s.items,
        it.productId = pid → pendingOf it = 0
  | r, [], _, s, hs, _, _, _ => by cases hs
  | r, s₀ :: rest, h, s, hs, it, hit, hm => by
    simp only [allocateShipments] at h hs
    rcases List.mem_cons.mp hs with hhead | htail
    · subst hhead
      have hr' : 0 < (allocateShipment pid eff r s₀).2.1 :=
        lt_of_lt_of_le h (allocateShipments_remaining_le _ rest)
      exact allocateShipment_drain hr' it hit hm
    · exact allocateShipments_drain _ rest h s htail it hit hm

theorem allocateShipments_pending :
    ∀ (r : Int) (ss : List Shipment),
      shipmentsPending pid (allocateShipments pid eff r ss).1 =
        shipmentsPending pid ss - sumApplied (allocateShipments pid eff r ss).2.2
  | r, [] => by simp [allocateShipments, shipmentsPending, sumApplied]
  | r, s :: rest => by
    have h₁ := @allocateShipment_pending pid eff r s
    have h₂ := @allocateShipment_applied_sum pid eff r s
    have ih := allocateShipments_pending (allocateShipment pid eff r s).2.1 rest
    simp only [allocateShipments, shipmentsPending, List.map_cons, List.sum_cons, sumApplied,
      List.map_append, List.sum_append] at ih h₁ ⊢
    omega

theorem allocateShipments_pending_other {q : String} (hq : q ≠ pid) :
    ∀ (r : Int) (ss : List Shipment),
      shipmentsPending q (allocateShipments pid eff r ss).1 = shipmentsPending q ss
  | r, [] => by simp [allocateShipments]
  | r, s :: rest => by
    have h₁ := @allocateShipment_pending_other pid eff r s q hq
    have ih := allocateShipments_pending_other hq (allocateShipment pid eff r s).2.1 rest
    simp only [allocateShipments, shipmentsPending, List.map_cons, List.sum_cons] at ih ⊢
    omega

theorem allocateShipments_inv :
    ∀ (r : Int) (ss : List Shipment), (∀ s ∈ ss, ∀ it ∈ s.items, itemInv it) →
      ∀ s ∈ (allocateShipments pid eff r ss).1, ∀ it ∈ s.items, itemInv it
  | r, [], _, s, hs => by cases hs
  | r, s₀ :: rest, hinv, s, hs => by
    simp only [allocateShipments] at hs
    rcases List.mem_cons.mp hs with hhead | htail
    · subst hhead
      exact allocateShipment_inv (hinv s₀ (List.mem_cons_self _ _))
    · exact allocateShipments_inv _ rest
        (fun x hx => hinv x (List.mem_cons_of_mem _ hx)) s htail

theorem allocateShipments_pos_of_allocs {r : Int} {ss : List Shipment}
    (h : (allocateShipments pid eff r ss).2.2 ≠ []) : 0 < r := by
  by_contra hr
  push_neg at hr
  rw [allocateShipments_of_nonpos r hr ss] at h
  exact h rfl

end AllocateShipments

section ProcessRequests

variable {products : List Product} {now : String}

theorem processRequest_not_found {ss : List Shipment} {u : ProductReturnRequest}
    (h : ¬ hasProduct products u.productId = true) :
    processRequest products now ss u =
      (ss, [],
        { productId := u.productId, requested := u.quantity, applied := 0,
          remaining := u.quantity, allocations := [], notes := u.notes,
          warning := some warnProductNotFound }) := by
  simp [processRequest, h]

theorem processRequest_found {ss : List Shipment} {u : ProductReturnRequest}
    (h : hasProduct products u.productId = true) :
    processRequest products now ss u =
      ((allocateShipments u.productId (u.occurredAt.getD now) (max u.quantity 0) ss).1,
        (allocateShipments u.productId (u.occurredAt.getD now) (max u.quantity 0) ss).2.2.map
          (·.shipmentId),
        { productId := u.productId, requested := u.quantity,
          applied :=
            u.quantity -
              (allocateShipments u.productId (u.occurredAt.getD now) (max u.quantity 0) ss).2.1,
          remaining :=
            (allocateShipments u.productId (u.occurredAt.getD now) (max u.quantity 0) ss).2.1,
          allocations :=
            (allocateShipments u.productId (u.occurredAt.getD now) (max u.quantity 0) ss).2.2,
          notes := u.notes,
          warning :=
            if u.quantity -
                (allocateShipments u.productId (u.occurredAt.getD now) (max u.quantity 0) ss).2.1
                = 0 then
              some warnNothingApplied
            else if 0 <
                (allocateShipments u.productId (u.occurredAt.getD now) (max u.quantity 0) ss).2.1
                then
              some warnPartial
            else none }) := by
  simp [processRequest, h]

theorem processRequest_result_sums {ss : List Shipment} {u : ProductReturnRequest}
    (hq : 0 ≤ u.quantity) :
    (processRequest products now ss u).2.2.applied + (processRequest products now ss u).2.2.remaining
        = (processRequest products now ss u).2.2.requested ∧
      (processRequest products now ss u).2.2.applied
        = sumApplied (processRequest products now ss u).2.2.allocations ∧
      (processRequest products now ss u).2.2.requested = u.quantity := by
  by_cases h : hasProduct products u.productId = true
  · rw [processRequest_found h]
    dsimp only
    have hs := @allocateShipments_applied_sum u.productId
      (u.occurredAt.getD now) (max u.quantity 0) ss
    exact ⟨by omega, by omega, rfl⟩
  · rw [processRequest_not_found h]
    dsimp only
    exact ⟨by omega, by simp [sumApplied], rfl⟩

theorem processRequest_productId {ss : List Shipment} {u : ProductReturnRequest} :
    (processRequest products now ss u).2.2.productId = u.productId := by
  by_cases h : hasProduct products u.productId = true
  · rw [processRequest_found h]
  · rw [processRequest_not_found h]

theorem processRequest_changed_allocs {ss : List Shipment} {u : ProductReturnRequest} :
    (processRequest products now ss u).2.1 =
      (processRequest products now ss u).2.2.allocations.map (·.shipmentId) := by
  by_cases h : hasProduct products u.productId = true
  · rw [processRequest_found h]
  · rw [processRequest_not_found h]
    simp

theorem processRequest_pending {ss : List Shipment} {u : ProductReturnRequest}
    (hq : 0 ≤ u.quantity) (pid : String) :
    shipmentsPending pid (processRequest products now ss u).1 =
      shipmentsPending pid ss -
        (if u.productId = pid then (processRequest products now ss u).2.2.applied else 0) := by
  by_cases h : hasProduct products u.productId = true
  · rw [processRequest_found h]
    dsimp only
    by_cases hp : u.productId = pid
    · subst hp
      have h₁ := @allocateShipments_pending u.productId
        (u.occurredAt.getD now) (max u.quantity 0) ss
      have h₂ := @allocateShipments_applied_sum u.productId
        (u.occurredAt.getD now) (max u.quantity 0) ss
      rw [if_pos (rfl : u.productId = u.productId)]
      omega
    · have h₁ := @allocateShipments_pending_other u.productId
        (u.occurredAt.getD now) pid (fun hh => hp hh.symm) (max u.quantity 0) ss
      simp only [if_neg hp]
      omega
  · rw [processRequest_not_found h]
    dsimp only
    split_ifs <;> omega

theorem processRequest_inv {ss : List Shipment} {u : ProductReturnRequest}
    (hinv : ∀ s ∈ ss, ∀ it ∈ s.items, itemInv it) :
    ∀ s ∈ (processRequest products now ss u).1, ∀ it ∈ s.items, itemInv it := by
  by_cases h : hasProduct products u.productId = true
  · rw [processRequest_found h]
    exact allocateShipments_inv _ ss hinv
  · rw [processRequest_not_found h]
    exact hinv

theorem addTouched_eq_nil :
    ∀ (c t : List String), addTouched t c = [] → t = [] ∧ c = []
  | [], t, h => ⟨h, rfl⟩
  | i :: c', t, h => by
    have hstep : addTouched t (i :: c') = addTouched (if i ∈ t then t else t ++ [i]) c' := by
      simp only [addTouched, List.foldl]
    rw [hstep] at h
    obtain ⟨h₁, -⟩ := addTouched_eq_nil c' _ h
    split_ifs at h₁ with hm
    · subst h₁
      cases hm
    · exact absurd h₁ (by simp)

theorem processRequests_results :
    ∀ (us : List ProductReturnRequest) (ss : List Shipment) (touched : List String),
      (∀ u ∈ us, 0 ≤ u.quantity) →
      ∀ res ∈ (processRequests products now ss touched us).2.2,
        res.applied + res.remaining = res.requested ∧
          res.applied = sumApplied res.allocations
  | [], ss, touched, _, res, hres => by cases hres
  | u :: rest, ss, touched, hq, res, hres => by
    simp only [processRequests] at hres
    rcases List.mem_cons.mp hres with hhead | htail
    · subst hhead
      obtain ⟨h₁, h₂, -⟩ := @processRequest_result_sums products now ss u
        (hq u (List.mem_cons_self _ _))
      exact ⟨h₁, h₂⟩
    · exact processRequests_results rest _ _
        (fun x hx => hq x (List.mem_cons_of_mem _ hx)) res htail

theorem processRequests_pending (pid : String) :
    ∀ (us : List ProductReturnRequest) (ss : List Shipment) (touched : List String),
      (∀ u ∈ us, 0 ≤ u.quantity) →
      shipmentsPending pid (processRequests products now ss touched us).1 =
        shipmentsPending pid ss - appliedFor pid (processRequests products now ss touched us).2.2
  | [], ss, touched, _ => by simp [processRequests, appliedFor]
  | u :: rest, ss, touched, hq => by
    have hstep := @processRequest_pending products now ss u
      (hq u (List.mem_cons_self _ _)) pid
    have hpid := @processRequest_productId products now ss u
    have ih := processRequests_pending pid rest (processRequest products now ss u).1
      (addTouched touched (processRequest products now ss u).2.1)
      (fun x hx => hq x (List.mem_cons_of_mem _ hx))
    simp only [processRequests, appliedFor, List.map_cons, List.sum_cons] at ih ⊢
    rw [ih, hpid]
    omega

theorem processRequests_inv :
    ∀ (us : List ProductReturnRequest) (ss : List Shipment) (touched : List String),
      (∀ s ∈ ss, ∀ it ∈ s.items, itemInv it) →
      ∀ s ∈ (processRequests products now ss touched us).1, ∀ it ∈ s.items, itemInv it
  | [], ss, touched, hinv => hinv
  | u :: rest, ss, touched, hinv => by
    simp only [processRequests]
    exact processRequests_inv rest _ _ (processRequest_inv hinv)

theorem processRequests_touched :
    ∀ (us : List ProductReturnRequest) (ss : List Shipment) (touched : List String),
      (processRequests products now ss touched us).2.1 ≠ [] →
      touched ≠ [] ∨
        ∃ res ∈ (processRequests products now ss touched us).2.2, res.allocations ≠ []
  | [], ss, touched, h => Or.inl h
  | u :: rest, ss, touched, h => by
    simp only [processRequests] at h ⊢
    rcases processRequests_touched rest (processRequest products now ss u).1
      (addTouched touched (processRequest products now ss u).2.1) h with htouch | ⟨res, hres, hal⟩
    · by_cases hch : (processRequest products now ss u).2.1 = []
      · rw [hch] at htouch
        exact Or.inl (by simpa [addTouched] using htouch)
      · refine Or.inr ⟨(processRequest products now ss u).2.2, List.mem_cons_self _ _, ?_⟩
        intro hnil
        rw [processRequest_changed_allocs, hnil] at hch
        exact hch rfl
    · exact Or.inr ⟨res, List.mem_cons_of_mem _ hres, hal⟩

end ProcessRequests

section UpdateLookup

theorem updateLookup_acc {i : String} :
    ∀ (updates : List ShipmentReturnUpdate) (acc : Option Int),
      (∀ u ∈ updates, u.lineId ≠ i) →
      updates.foldl
        (fun acc u => if u.lineId == i then some u.quantityReturned else acc) acc = acc
  | [], acc, _ => rfl
  | u :: rest, acc, h => by
    simp only [List.foldl]
    rw [if_neg (by simpa using h u (List.mem_cons_self _ _))]
    exact updateLookup_acc rest acc (fun x hx => h x (List.mem_cons_of_mem _ hx))

theorem updateLookup_none {updates : List ShipmentReturnUpdate} {i : String}
    (h : ∀ u ∈ updates, u.lineId ≠ i) : updateLookup updates i = none :=
  updateLookup_acc updates none h

theorem updateLookup_cons_ne {u : ShipmentReturnUpdate}
    {updates : List ShipmentReturnUpdate} {i : String} (h : u.lineId ≠ i) :
    updateLookup (u :: updates) i = updateLookup updates i := by
  simp only [updateLookup, List.foldl]
  rw [if_neg (by simpa using h)]

theorem updateLookup_found {i : String} :
    ∀ (updates : List ShipmentReturnUpdate) (acc : Option Int) (v : Int),
      updates.foldl
        (fun acc u => if u.lineId == i then some u.quantityReturned else acc) acc = some v →
      (∃ u ∈ updates, u.lineId = i ∧ u.quantityReturned = v) ∨ acc = some v
  | [], acc, v, h => Or.inr h
  | u :: rest, acc, v, h => by
    simp only [List.foldl] at h
    rcases updateLookup_found rest _ v h with ⟨u', hu', hli, hqr⟩ | hacc
    · exact Or.inl ⟨u', List.mem_cons_of_mem _ hu', hli, hqr⟩
    · by_cases hc : u.lineId = i
      · rw [if_pos (by simpa using hc)] at hacc
        exact Or.inl ⟨u, List.mem_cons_self _ _, hc, by injection hacc⟩
      · rw [if_neg (by simpa using hc)] at hacc
        exact Or.inr hacc

theorem updateLookup_mem {updates : List ShipmentReturnUpdate} {i : String} {v : Int}
    (h : updateLookup updates i = some v) :
    ∃ u ∈ updates, u.lineId = i ∧ u.quantityReturned = v := by
  rcases updateLookup_found updates none v h with hu | hacc
  · exact hu
  · cases hacc

end UpdateLookup

theorem core_set_twice (now₁ now₂ : String) (s : Shipment)
    (updates : List ShipmentReturnUpdate) :
    updateShipmentReturnsCore now₂ (updateShipmentReturnsCore now₁ s updates UpdateMode.set)
        updates UpdateMode.set =
      updateShipmentReturnsCore now₂ s updates UpdateMode.set := by
  have hitems : (updateShipmentReturnsCore now₂
      (updateShipmentReturnsCore now₁ s updates UpdateMode.set)
      updates UpdateMode.set).items =
      (updateShipmentReturnsCore now₂ s updates UpdateMode.set).items := by
    simp only [updateShipmentReturnsCore, List.map_map]
    refine List.map_congr_left fun item _ => ?_
    simp only [Function.comp_apply]
    cases hl : updateLookup updates item.id with
    | none => simp [hl]
    | some v => simp [hl]
  simp only [updateShipmentReturnsCore, Shipment.mk.injEq, true_and, and_true] at hitems ⊢
  exact ⟨hitems, by rw [hitems]⟩

theorem core_congr_lookup {now : String} {s : Shipment}
    {updates₁ updates₂ : List ShipmentReturnUpdate} {mode : UpdateMode}
    (h : ∀ item ∈ s.items, updateLookup updates₁ item.id = updateLookup updates₂ item.id) :
    updateShipmentReturnsCore now s updates₁ mode =
      updateShipmentReturnsCore now s updates₂ mode := by
  have hitems : (updateShipmentReturnsCore now s updates₁ mode).items =
      (updateShipmentReturnsCore now s updates₂ mode).items := by
    simp only [updateShipmentReturnsCore]
    exact List.map_congr_left fun item hm => by rw [h item hm]
  simp only [updateShipmentReturnsCore, Shipment.mk.injEq, true_and, and_true] at hitems ⊢
  exact ⟨hitems, by rw [hitems]⟩

theorem core_items_of_no_match {now : String} {s : Shipment}
    {updates : List ShipmentReturnUpdate} {mode : UpdateMode}
    (hnone : ∀ item ∈ s.items, updateLookup updates item.id = none) :
    (updateShipmentReturnsCore now s updates mode).items = s.items := by
  simp only [updateShipmentReturnsCore]
  refine (List.map_congr_left fun item hm => ?_).trans (List.map_id _)
  rw [hnone item hm]
  rfl

section Claims

/-- C7: `updateShipmentReturns` with `mode = "set"` is idempotent: running the
same update payload a second time over the shipment produced by the first run
yields exactly the state a single run produces (for any pair of call
timestamps, so in particular for two calls with the same timestamp). -/
theorem updateShipmentReturns_set_idempotent :
    ∀ (ownerId now₁ now₂ : String) (stored : Option Shipment)
      (updates : List ShipmentReturnUpdate),
      updateShipmentReturns ownerId now₂
          (updateShipmentReturns ownerId now₁ stored updates UpdateMode.set)
          updates UpdateMode.set =
        updateShipmentReturns ownerId now₂ stored updates UpdateMode.set := by
  intro ownerId now₁ now₂ stored updates
  cases stored with
  | none => rfl
  | some s =>
    simp only [updateShipmentReturns]
    by_cases hown : s.ownerId = ownerId
    · rw [if_pos hown]
      simp only [updateShipmentReturns]
      rw [if_pos (show (updateShipmentReturnsCore now₁ s updates UpdateMode.set).ownerId
        = ownerId from hown)]
      rw [core_set_twice, if_pos hown]
    · rw [if_neg hown]
      simp only [updateShipmentReturns]
      rw [if_neg hown]

/-- C3 (code bug demonstration): in `applyProductReturns` a product owned by a
DIFFERENT caller is not rejected: the existence check `products.has(id)` never
compares the product's `ownerId` with the caller (and `fetchProductsByIds`
queries by document id with no owner filter), so the request proceeds and is
allocated against the caller's own shipment lines, with no warning and a
storage write, instead of being treated like an absent product. -/
theorem applyProductReturns_cross_owner_allocates :
    foreignProduct.ownerId ≠ "owner1" ∧
    (applyProductReturns [foreignProduct] "2024-02-10T08:00:00.000Z" "owner1"
        [sampleShipB, sampleShipA]
        [{ productId := "prodP", quantity := 3, occurredAt := none, notes := none }]).results.map
      (·.warning) = [none] ∧
    (applyProductReturns [foreignProduct] "2024-02-10T08:00:00.000Z" "owner1"
        [sampleShipB, sampleShipA]
        [{ productId := "prodP", quantity := 3, occurredAt := none, notes := none }]).results.map
      (·.applied) = [3] ∧
    (applyProductReturns [foreignProduct] "2024-02-10T08:00:00.000Z" "owner1"
        [sampleShipB, sampleShipA]
        [{ productId := "prodP", quantity := 3, occurredAt := none, notes := none }]).touched
      = ["shipA"] := by
  exact ⟨by decide, by decide, by decide, by decide⟩

/-- C4: for each update whose `lineId` matches an existing line,
`updateShipmentReturns` sets that line's `quantityReturned` to
`clamp(requested, 0, quantitySent)` in `set` mode and to
`clamp(current + requested, 0, quantitySent)` in `increment` mode (for the
route-validated inputs, `requested ≥ 0`, and lines satisfying the
`quantityReturned ≥ 0` invariant); lines not mentioned keep their previous
value, an update whose `lineId` matches no line is silently ignored with no
error, and the default mode is `set`. -/
theorem updateShipmentReturns_clamps :
    ∀ (ownerId now : String) (s : Shipment) (updates : List ShipmentReturnUpdate)
      (mode : UpdateMode),
      s.ownerId = ownerId →
      (∀ u ∈ updates, 0 ≤ u.quantityReturned) →
      (∀ it ∈ s.items, 0 ≤ it.quantityReturned) →
      ∃ s', updateShipmentReturns ownerId now (some s) updates mode = some s' ∧
        s'.items = s.items.map (fun item =>
          match updateLookup updates item.id with
          | none => item
          | some v =>
            { item with
                quantityReturned :=
                  match mode with
                  | UpdateMode.set => clamp v 0 item.quantitySent
                  | UpdateMode.increment =>
                    clamp (item.quantityReturned + v) 0 item.quantitySent }) ∧
        (∀ u : ShipmentReturnUpdate, (∀ it ∈ s.items, it.id ≠ u.lineId) →
          updateShipmentReturns ownerId now (some s) (u :: updates) mode =
            updateShipmentReturns ownerId now (some s) updates mode) ∧
        updateShipmentReturns ownerId now (some s) updates =
          updateShipmentReturns ownerId now (some s) updates UpdateMode.set := by
  intro ownerId now s updates mode hown hupd hqr0
  refine ⟨updateShipmentReturnsCore now s updates mode, by simp [updateShipmentReturns, hown],
    ?_, ?_, rfl⟩
  · simp only [updateShipmentReturnsCore]
    refine List.map_congr_left fun item hmem => ?_
    cases hl : updateLookup updates item.id with
    | none => simp [hl]
    | some v =>
      obtain ⟨u, hu, -, huq⟩ := updateLookup_mem hl
      have hv : 0 ≤ v := huq ▸ hupd u hu
      have hq : 0 ≤ item.quantityReturned := hqr0 item hmem
      cases mode with
      | set =>
        have hb : (if UpdateMode.set = UpdateMode.increment
            then item.quantityReturned else 0) = 0 := rfl
        simp only [hl, clamp, ShipmentItem.mk.injEq, true_and, hb]
        omega
      | increment =>
        simp only [hl, clamp, ShipmentItem.mk.injEq, true_and, if_true]
        omega
  · intro u hunk
    simp only [updateShipmentReturns, if_pos hown, Option.some.injEq]
    exact core_congr_lookup fun item hm =>
      updateLookup_cons_ne (fun he => hunk item hm he.symm)

/-- C4 witness: the spec's clamp description instantiated on a concrete
shipment, one matching update and one unknown line id. -/
theorem updateShipmentReturns_clamps_witness :
    ∃ s', updateShipmentReturns "owner1" "2024-03-01T08:00:00.000Z" (some sampleShipMixed)
        [{ lineId := "lineC1", quantityReturned := 9 }] UpdateMode.increment = some s' ∧
      s'.items = sampleShipMixed.items.map (fun item =>
        match updateLookup [{ lineId := "lineC1", quantityReturned := 9 }] item.id with
        | none => item
        | some v =>
          { item with
              quantityReturned :=
                match UpdateMode.increment with
                | UpdateMode.set => clamp v 0 item.quantitySent
                | UpdateMode.increment =>
                  clamp (item.quantityReturned + v) 0 item.quantitySent }) ∧
      (∀ u : ShipmentReturnUpdate, (∀ it ∈ sampleShipMixed.items, it.id ≠ u.lineId) →
        updateShipmentReturns "owner1" "2024-03-01T08:00:00.000Z" (some sampleShipMixed)
            (u :: [{ lineId := "lineC1", quantityReturned := 9 }]) UpdateMode.increment =
          updateShipmentReturns "owner1" "2024-03-01T08:00:00.000Z" (some sampleShipMixed)
            [{ lineId := "lineC1", quantityReturned := 9 }] UpdateMode.increment) ∧
      updateShipmentReturns "owner1" "2024-03-01T08:00:00.000Z" (some sampleShipMixed)
          [{ lineId := "lineC1", quantityReturned := 9 }] =
        updateShipmentReturns "owner1" "2024-03-01T08:00:00.000Z" (some sampleShipMixed)
          [{ lineId := "lineC1", quantityReturned := 9 }] UpdateMode.set :=
  updateShipmentReturns_clamps "owner1" "2024-03-01T08:00:00.000Z" sampleShipMixed
    [{ lineId := "lineC1", quantityReturned := 9 }] UpdateMode.increment
    (by decide) (by decide) (by decide)

/-- C10: `updateShipmentReturns` always persists the shipment with a fresh
`updatedAt` (which is the date `listShipmentBalances` reports for the
shipment's "return" movements), even when every supplied `lineId` is unknown
and no line quantity changes; all other shipment fields and the lines' ids,
product ids and sent quantities are unchanged. -/
theorem updateShipmentReturns_frame :
    ∀ (ownerId now : String) (s : Shipment) (updates : List ShipmentReturnUpdate)
      (mode : UpdateMode),
      s.ownerId = ownerId →
      ∃ s', updateShipmentReturns ownerId now (some s) updates mode = some s' ∧
        s'.updatedAt = now ∧ returnMovementOccurredAt s' = now ∧
        s'.id = s.id ∧ s'.ownerId = s.ownerId ∧ s'.sentAt = s.sentAt ∧
        s'.expectedReturnAt = s.expectedReturnAt ∧ s'.notes = s.notes ∧
        s'.createdAt = s.createdAt ∧
        s'.items.map (·.id) = s.items.map (·.id) ∧
        s'.items.map (·.productId) = s.items.map (·.productId) ∧
        s'.items.map (·.quantitySent) = s.items.map (·.quantitySent) ∧
        ((∀ u ∈ updates, ∀ it ∈ s.items, it.id ≠ u.lineId) → s'.items = s.items) := by
  intro ownerId now s updates mode hown
  refine ⟨updateShipmentReturnsCore now s updates mode, by simp [updateShipmentReturns, hown],
    rfl, rfl, rfl, rfl, rfl, rfl, rfl, rfl, ?_, ?_, ?_, ?_⟩
  · simp only [updateShipmentReturnsCore, List.map_map]
    refine List.map_congr_left fun item _ => ?_
    simp only [Function.comp_apply]
    cases hl : updateLookup updates item.id <;> simp [hl]
  · simp only [updateShipmentReturnsCore, List.map_map]
    refine List.map_congr_left fun item _ => ?_
    simp only [Function.comp_apply]
    cases hl : updateLookup updates item.id <;> simp [hl]
  · simp only [updateShipmentReturnsCore, List.map_map]
    refine List.map_congr_left fun item _ => ?_
    simp only [Function.comp_apply]
    cases hl : updateLookup updates item.id <;> simp [hl]
  · intro hunk
    exact core_items_of_no_match fun item hm =>
      updateLookup_none (fun u hu => fun he => hunk u hu item hm he.symm)

/-- C10 witness: an update list whose only line id matches nothing still
refreshes `updatedAt` while leaving the items untouched. -/
theorem updateShipmentReturns_frame_witness :
    ∃ s', updateShipmentReturns "owner1" "2024-03-02T08:00:00.000Z" (some sampleShipA)
        [{ lineId := "missing", quantityReturned := 4 }] UpdateMode.set = some s' ∧
      s'.updatedAt = "2024-03-02T08:00:00.000Z" ∧
      returnMovementOccurredAt s' = "2024-03-02T08:00:00.000Z" ∧
      s'.id = sampleShipA.id ∧ s'.ownerId = sampleShipA.ownerId ∧
      s'.sentAt = sampleShipA.sentAt ∧
      s'.expectedReturnAt = sampleShipA.expectedReturnAt ∧ s'.notes = sampleShipA.notes ∧
      s'.createdAt = sampleShipA.createdAt ∧
      s'.items.map (·.id) = sampleShipA.items.map (·.id) ∧
      s'.items.map (·.productId) = sampleShipA.items.map (·.productId) ∧
      s'.items.map (·.quantitySent) = sampleShipA.items.map (·.quantitySent) ∧
      ((∀ u ∈ [({ lineId := "missing", quantityReturned := 4 } : ShipmentReturnUpdate)],
          ∀ it ∈ sampleShipA.items, it.id ≠ u.lineId) → s'.items = sampleShipA.items) :=
  updateShipmentReturns_frame "owner1" "2024-03-02T08:00:00.000Z" sampleShipA
    [{ lineId := "missing", quantityReturned := 4 }] UpdateMode.set (by decide)

/-- C5: for every `applyProductReturns` request with a non-negative quantity,
the result satisfies `applied + remaining = requested` and `applied` equals
the sum of the `applied` fields of its allocations; in particular a result
with `remaining = 0` has allocations summing to `requested`. -/
theorem applyProductReturns_conservation :
    ∀ (productStore : List Product) (now ownerId : String) (ss : List Shipment)
      (updates : List ProductReturnRequest),
      (∀ u ∈ updates, 0 ≤ u.quantity) →
      ∀ res ∈ (applyProductReturns productStore now ownerId ss updates).results,
        res.applied + res.remaining = res.requested ∧
        res.applied = sumApplied res.allocations ∧
        (res.remaining = 0 → sumApplied res.allocations = res.requested) := by
  intro productStore now ownerId ss updates hq res hres
  by_cases hu : updates.isEmpty
  · simp [applyProductReturns, hu] at hres
  · by_cases hs : ss.isEmpty
    · simp only [applyProductReturns, hu, hs, Bool.false_eq_true, if_false, if_true] at hres
      obtain ⟨u, hu', rfl⟩ := List.mem_map.mp hres
      dsimp only
      exact ⟨by omega, by simp [sumApplied], fun h0 => by simp [sumApplied]; omega⟩
    · simp only [applyProductReturns, hu, hs, Bool.false_eq_true, if_false] at hres
      obtain ⟨h₁, h₂⟩ := processRequests_results updates (sortShipments ss) [] hq res hres
      exact ⟨h₁, h₂, fun h0 => by omega⟩

/-- C5 witness: the two-shipment FIFO scenario, request of 7 on a pending
balance of 10, applied through the theorem. -/
theorem applyProductReturns_conservation_witness :
    sampleResult7.applied + sampleResult7.remaining = sampleResult7.requested ∧
    sampleResult7.applied = sumApplied sampleResult7.allocations ∧
    (sampleResult7.remaining = 0 →
      sumApplied sampleResult7.allocations = sampleResult7.requested) :=
  applyProductReturns_conservation [sampleProduct] "2024-02-10T08:00:00.000Z" "owner1"
    [sampleShipB, sampleShipA]
    [{ productId := "prodP", quantity := 7, occurredAt := none, notes := none }]
    (by decide) sampleResult7 (by decide)

/-- C6: with no shipments at all, every request of `applyProductReturns`
short-circuits with `applied = 0`, `remaining = quantity`, no allocations and
the "no shipment found" warning, and nothing is written; in general a write
only happens when some request received at least one allocation. -/
theorem applyProductReturns_no_writes :
    ∀ (productStore : List Product) (now ownerId : String) (ss : List Shipment)
      (updates : List ProductReturnRequest),
      (ss = [] →
        (applyProductReturns productStore now ownerId ss updates).results =
          updates.map (fun u =>
            { productId := u.productId, requested := u.quantity, applied := 0,
              remaining := u.quantity, allocations := [], notes := u.notes,
              warning := some warnNoShipment }) ∧
        (applyProductReturns productStore now ownerId ss updates).touched = [] ∧
        persistedShipments (applyProductReturns productStore now ownerId ss updates) = []) ∧
      ((applyProductReturns productStore now ownerId ss updates).touched ≠ [] →
        ∃ res ∈ (applyProductReturns productStore now ownerId ss updates).results,
          res.allocations ≠ []) := by
  intro productStore now ownerId ss updates
  constructor
  · intro hss
    subst hss
    by_cases hu : updates.isEmpty
    · rw [List.isEmpty_iff] at hu
      subst hu
      exact ⟨rfl, rfl, rfl⟩
    · simp [applyProductReturns, hu, persistedShipments]
  · intro ht
    by_cases hu : updates.isEmpty
    · exact absurd (by simp [applyProductReturns, hu]) ht
    · by_cases hs : ss.isEmpty
      · exact absurd (by simp [applyProductReturns, hu, hs]) ht
      · simp only [applyProductReturns, hu, hs, Bool.false_eq_true, if_false] at ht ⊢
        rcases processRequests_touched updates (sortShipments ss) [] ht with habs | hex
        · exact absurd rfl habs
        · exact hex

/-- C6 witness: the spec scenario of a return of 3 against zero shipments,
applied through the theorem. -/
theorem applyProductReturns_no_writes_witness :
    (applyProductReturns [sampleProduct] "2024-02-10T08:00:00.000Z" "owner1" []
        [{ productId := "prodP", quantity := 3, occurredAt := none, notes := none }]).results =
      [{ productId := "prodP", quantity := 3, occurredAt := none,
          notes := none : ProductReturnRequest }].map (fun u =>
        { productId := u.productId, requested := u.quantity, applied := 0,
          remaining := u.quantity, allocations := [], notes := u.notes,
          warning := some warnNoShipment }) ∧
    (applyProductReturns [sampleProduct] "2024-02-10T08:00:00.000Z" "owner1" []
        [{ productId := "prodP", quantity := 3, occurredAt := none, notes := none }]).touched
      = [] ∧
    persistedShipments (applyProductReturns [sampleProduct] "2024-02-10T08:00:00.000Z" "owner1"
        [] [{ productId := "prodP", quantity := 3, occurredAt := none, notes := none }]) = [] :=
  (applyProductReturns_no_writes [sampleProduct] "2024-02-10T08:00:00.000Z" "owner1" []
    [{ productId := "prodP", quantity := 3, occurredAt := none, notes := none }]).1 rfl

/-- C9: requests of one `applyProductReturns` call are processed in list order
against one shared in-memory copy of the shipments, so pending balance
consumed by an earlier request is gone for later requests: for every product,
the pending total of the final in-memory state is the initial pending total
minus everything the call's results report as applied to that product (under
independent per-request pools the reported total could exceed the initial
pending). -/
theorem applyProductReturns_sequential :
    ∀ (productStore : List Product) (now ownerId pid : String) (ss : List Shipment)
      (updates : List ProductReturnRequest),
      (∀ u ∈ updates, 0 ≤ u.quantity) →
      shipmentsPending pid (applyProductReturns productStore now ownerId ss updates).shipments =
        shipmentsPending pid ss -
          appliedFor pid (applyProductReturns productStore now ownerId ss updates).results := by
  intro productStore now ownerId pid ss updates hq
  by_cases hu : updates.isEmpty
  · rw [List.isEmpty_iff] at hu
    subst hu
    simp [applyProductReturns, appliedFor]
  · by_cases hs : ss.isEmpty
    · rw [List.isEmpty_iff] at hs
      subst hs
      simp only [applyProductReturns, hu, Bool.false_eq_true, if_false, List.isEmpty_nil,
        if_true]
      have hzero : ∀ us : List ProductReturnRequest,
          appliedFor pid (us.map (fun u =>
            { productId := u.productId, requested := u.quantity, applied := 0,
              remaining := u.quantity, allocations := [], notes := u.notes,
              warning := some warnNoShipment })) = 0 := by
        intro us
        induction us with
        | nil => simp [appliedFor]
        | cons u rest ih =>
          simp only [appliedFor, List.map_cons, List.sum_cons] at ih ⊢
          rw [ih]
          simp
      rw [hzero updates]
      simp [shipmentsPending]
    · simp only [applyProductReturns, hu, hs, Bool.false_eq_true, if_false]
      have h := @processRequests_pending (fetchProductsByIds productStore
        (updates.map (·.productId))) now pid updates (sortShipments ss) [] hq
      have hperm : shipmentsPending pid (sortShipments ss) = shipmentsPending pid ss := by
        unfold shipmentsPending
        exact List.Perm.sum_eq ((List.perm_insertionSort _ ss).map _)
      omega

/-- C9 witness: two requests for the same product in one call; the second
finds the pool already drained, so the reported applied totals exactly
exhaust the initial pending balance. -/
theorem applyProductReturns_sequential_witness :
    shipmentsPending "prodP" (applyProductReturns [sampleProduct] "2024-02-10T08:00:00.000Z"
        "owner1" [sampleShipB, sampleShipA]
        [{ productId := "prodP", quantity := 10, occurredAt := none, notes := none },
         { productId := "prodP", quantity := 4, occurredAt := none, notes := none }]).shipments =
      shipmentsPending "prodP" [sampleShipB, sampleShipA] -
        appliedFor "prodP" (applyProductReturns [sampleProduct] "2024-02-10T08:00:00.000Z"
          "owner1" [sampleShipB, sampleShipA]
          [{ productId := "prodP", quantity := 10, occurredAt := none, notes := none },
           { productId := "prodP", quantity := 4, occurredAt := none, notes := none }]).results :=
  applyProductReturns_sequential [sampleProduct] "2024-02-10T08:00:00.000Z" "owner1" "prodP"
    [sampleShipB, sampleShipA]
    [{ productId := "prodP", quantity := 10, occurredAt := none, notes := none },
     { productId := "prodP", quantity := 4, occurredAt := none, notes := none }]
    (by decide)

/-- C2: `0 ≤ quantityReturned ≤ quantitySent` holds for every line after each
mutation: `createShipment` clamps the optional initial value into
`[0, quantitySent]` (for lines with a non-negative sent quantity), and
`updateShipmentReturns` and `applyProductReturns` preserve the invariant, both
in the in-memory state and in the written documents. -/
theorem quantityReturned_invariant :
    (∀ (docId ownerId now : String) (lineIds : List String) (input : ShipmentInput),
      (∀ it ∈ input.items, 0 ≤ it.quantitySent) →
      ∀ item ∈ (createShipment docId ownerId now lineIds input).items, itemInv item) ∧
    (∀ (now : String) (s : Shipment) (updates : List ShipmentReturnUpdate)
        (mode : UpdateMode),
      (∀ it ∈ s.items, itemInv it) →
      ∀ item ∈ (updateShipmentReturnsCore now s updates mode).items, itemInv item) ∧
    (∀ (productStore : List Product) (now ownerId : String) (ss : List Shipment)
        (updates : List ProductReturnRequest),
      (∀ s ∈ ss, ∀ it ∈ s.items, itemInv it) →
      (∀ s ∈ (applyProductReturns productStore now ownerId ss updates).shipments,
          ∀ it ∈ s.items, itemInv it) ∧
      (∀ s ∈ persistedShipments (applyProductReturns productStore now ownerId ss updates),
          ∀ it ∈ s.items, itemInv it)) := by
  refine ⟨?_, ?_, ?_⟩
  · intro docId ownerId now lineIds input hsent item hitem
    simp only [createShipment, List.mem_map] at hitem
    obtain ⟨p, hp, rfl⟩ := hitem
    have hqs : 0 ≤ p.2.quantitySent := hsent p.2 (List.of_mem_zip hp).2
    simp only [createShipmentItem, itemInv]
    constructor
    · omega
    · omega
  · intro now s updates mode hinv item hitem
    simp only [updateShipmentReturnsCore, List.mem_map] at hitem
    obtain ⟨it0, h0, rfl⟩ := hitem
    obtain ⟨ha, hb⟩ := hinv it0 h0
    cases hl : updateLookup updates it0.id with
    | none => simpa [hl] using hinv it0 h0
    | some v =>
      simp only [hl, itemInv]
      cases mode with
      | set =>
        have hc : (if UpdateMode.set = UpdateMode.increment
            then it0.quantityReturned else 0) = 0 := rfl
        simp only [hc]
        exact ⟨by omega, by omega⟩
      | increment =>
        have hc : (if UpdateMode.increment = UpdateMode.increment
            then it0.quantityReturned else 0) = it0.quantityReturned := rfl
        simp only [hc]
        exact ⟨by omega, by omega⟩
  · intro productStore now ownerId ss updates hinv
    have hmain : ∀ s ∈ (applyProductReturns productStore now ownerId ss updates).shipments,
        ∀ it ∈ s.items, itemInv it := by
      by_cases hu : updates.isEmpty
      · simpa [applyProductReturns, hu] using hinv
      · by_cases hs : ss.isEmpty
        · simp only [applyProductReturns, hu, hs, Bool.false_eq_true, if_false, if_true]
          exact hinv
        · simp only [applyProductReturns, hu, hs, Bool.false_eq_true, if_false]
          refine processRequests_inv updates (sortShipments ss) [] ?_
          intro s hsmem
          exact hinv s ((List.mem_insertionSort _).mp hsmem)
    refine ⟨hmain, ?_⟩
    intro s hs it hit
    simp only [persistedShipments, List.mem_map, List.mem_filter] at hs
    obtain ⟨t, ⟨ht, -⟩, rfl⟩ := hs
    simp only [clampShipmentForWrite, List.mem_map] at hit
    obtain ⟨it0, h0, rfl⟩ := hit
    obtain ⟨ha, hb⟩ := hmain t ht it0 h0
    exact ⟨by simp only [itemInv]; omega, by simp only [itemInv]; omega⟩

/-- C2 witness: the invariant instantiated on a creation with an oversized
initial return, an increment update, and a FIFO application. -/
theorem quantityReturned_invariant_witness :
    (∀ item ∈ (createShipment "shipN" "owner1" "2024-03-01T08:00:00.000Z" ["lineN"]
        { sentAt := "2024-03-01", expectedReturnAt := none, notes := none,
          items := [{ productId := "prodP", quantitySent := 5,
                      quantityReturned := some 9 }] }).items, itemInv item) ∧
    (∀ item ∈ (updateShipmentReturnsCore "2024-03-01T08:00:00.000Z" sampleShipMixed
        [{ lineId := "lineC1", quantityReturned := 9 }] UpdateMode.increment).items,
      itemInv item) ∧
    (∀ s ∈ (applyProductReturns [sampleProduct] "2024-02-10T08:00:00.000Z" "owner1"
        [sampleShipB, sampleShipA]
        [{ productId := "prodP", quantity := 7, occurredAt := none,
           notes := none }]).shipments, ∀ it ∈ s.items, itemInv it) :=
  ⟨quantityReturned_invariant.1 "shipN" "owner1" "2024-03-01T08:00:00.000Z" ["lineN"]
      { sentAt := "2024-03-01", expectedReturnAt := none, notes := none,
        items := [{ productId := "prodP", quantitySent := 5, quantityReturned := some 9 }] }
      (by decide),
    quantityReturned_invariant.2.1 "2024-03-01T08:00:00.000Z" sampleShipMixed
      [{ lineId := "lineC1", quantityReturned := 9 }] UpdateMode.increment (by decide),
    (quantityReturned_invariant.2.2 [sampleProduct] "2024-02-10T08:00:00.000Z" "owner1"
      [sampleShipB, sampleShipA]
      [{ productId := "prodP", quantity := 7, occurredAt := none, notes := none }]
      (by decide)).1⟩

/-- C1: `applyProductReturns` allocates FIFO.  The shipment list used for
allocation (`sortShipments`) is sorted ascending by sent-at; and splitting the
sorted list into an older prefix and a younger suffix, the walk processes the
suffix only with what remains after the prefix, and if any allocation lands in
the younger suffix then every matching line of the processed older prefix has
been fully allocated (pending 0). -/
theorem applyProductReturns_fifo :
    (∀ ss : List Shipment,
      List.Pairwise (fun a b => strLe a.sentAt b.sentAt = true) (sortShipments ss)) ∧
    (∀ (pid eff : String) (q : Int) (pre post : List Shipment),
      allocateShipments pid eff q (pre ++ post) =
        ((allocateShipments pid eff q pre).1 ++
            (allocateShipments pid eff (allocateShipments pid eff q pre).2.1 post).1,
          (allocateShipments pid eff (allocateShipments pid eff q pre).2.1 post).2.1,
          (allocateShipments pid eff q pre).2.2 ++
            (allocateShipments pid eff (allocateShipments pid eff q pre).2.1 post).2.2) ∧
      ((allocateShipments pid eff (allocateShipments pid eff q pre).2.1 post).2.2 ≠ [] →
        ∀ s ∈ (allocateShipments pid eff q pre).1, ∀ it ∈ s.items,
          it.productId = pid → pendingOf it = 0)) := by
  constructor
  · intro ss
    haveI : IsTotal Shipment (fun a b => strLe a.sentAt b.sentAt = true) :=
      ⟨fun a b => strLeB_total a.sentAt.data b.sentAt.data⟩
    haveI : IsTrans Shipment (fun a b => strLe a.sentAt b.sentAt = true) :=
      ⟨fun a b c => strLeB_trans a.sentAt.data b.sentAt.data c.sentAt.data⟩
    exact List.sorted_insertionSort _ ss
  · intro pid eff q pre post
    refine ⟨allocateShipments_append q pre post, ?_⟩
    intro hne s hs it hit hm
    have hpos : 0 < (allocateShipments pid eff q pre).2.1 :=
      allocateShipments_pos_of_allocs hne
    exact allocateShipments_drain q pre hpos s hs it hit hm

/-- C1 witness: shipments A (sent 2024-01-01) and B (sent 2024-01-05), both
with pending 5, and a request of 7 covering both: B receives an allocation,
and A's line is fully allocated (pending 0) first. -/
theorem applyProductReturns_fifo_witness :
    (allocateShipments "prodP" "2024-02-10T08:00:00.000Z"
        ((allocateShipments "prodP" "2024-02-10T08:00:00.000Z" 7 [sampleShipA]).2.1)
        [sampleShipB]).2.2 ≠ [] ∧
    (∀ s ∈ (allocateShipments "prodP" "2024-02-10T08:00:00.000Z" 7 [sampleShipA]).1,
      ∀ it ∈ s.items, it.productId = "prodP" → pendingOf it = 0) :=
  ⟨by decide,
    (applyProductReturns_fifo.2 "prodP" "2024-02-10T08:00:00.000Z" 7
      [sampleShipA] [sampleShipB]).2 (by decide)⟩

/-- C8: a successful `deleteProduct` strips every line of the owner's
shipments that references the deleted product; a shipment whose lines all
referenced it is deleted outright, while a shipment with other lines keeps
exactly the remaining lines, its other fields, and gets the fresh updated-at
timestamp (assuming the stored `itemProductIds` mirror is in sync and shipment
ids are unique). -/
theorem deleteProduct_cascades :
    ∀ (id ownerId now : String) (products : List Product) (shipments : List Shipment)
      (p : Product),
      products.find? (fun q => q.id == id) = some p →
      p.ownerId = ownerId →
      (∀ s ∈ shipments, s.itemProductIds = s.items.map (·.productId)) →
      (shipments.map (·.id)).Nodup →
      (deleteProduct id ownerId now products shipments).1 = true ∧
      (∀ s' ∈ (deleteProduct id ownerId now products shipments).2.2,
        s'.ownerId = ownerId → ∀ it ∈ s'.items, it.productId ≠ id) ∧
      (∀ s ∈ shipments, s.ownerId = ownerId → s.items ≠ [] →
        (∀ it ∈ s.items, it.productId = id) →
        ∀ s' ∈ (deleteProduct id ownerId now products shipments).2.2, s'.id ≠ s.id) ∧
      (∀ s ∈ shipments, s.ownerId = ownerId →
        (∃ it ∈ s.items, it.productId = id) → (∃ it ∈ s.items, it.productId ≠ id) →
        ∃ s' ∈ (deleteProduct id ownerId now products shipments).2.2, s'.id = s.id ∧
          s'.items = s.items.filter (fun it => it.productId ≠ id) ∧
          s'.updatedAt = now ∧ s'.sentAt = s.sentAt ∧ s'.ownerId = s.ownerId ∧
          s'.expectedReturnAt = s.expectedReturnAt ∧ s'.notes = s.notes ∧
          s'.createdAt = s.createdAt) := by
  intro id ownerId now products shipments p hfind hpown hsync hnodup
  have hres : deleteProduct id ownerId now products shipments =
      (true, products.filter (fun q => q.id ≠ id), shipments.filterMap (fun s =>
        if s.ownerId == ownerId && s.itemProductIds.contains id then
          if (s.items.filter (fun item => item.productId ≠ id)).isEmpty then none
          else some { s with
            items := s.items.filter (fun item => item.productId ≠ id),
            itemProductIds :=
              (s.items.filter (fun item => item.productId ≠ id)).map (·.productId),
            updatedAt := now }
        else some s)) := by
    simp only [deleteProduct, hfind]
    rw [if_neg (by simp [hpown])]
  rw [hres]
  refine ⟨rfl, ?_, ?_, ?_⟩
  · intro s' hs' hsown it hit
    obtain ⟨t, ht, hft⟩ := List.mem_filterMap.mp hs'
    by_cases hcond : (t.ownerId == ownerId && t.itemProductIds.contains id) = true
    · rw [if_pos hcond] at hft
      by_cases hempty : (t.items.filter (fun item => item.productId ≠ id)).isEmpty = true
      · rw [if_pos hempty] at hft
        cases hft
      · rw [if_neg hempty] at hft
        injection hft with hft
        subst hft
        simp only [List.mem_filter] at hit
        exact of_decide_eq_true hit.2
    · rw [if_neg hcond] at hft
      injection hft with hft
      subst hft
      simp only [Bool.and_eq_true, beq_iff_eq, not_and] at hcond
      have hnotin : id ∉ t.itemProductIds := fun hmem =>
        hcond hsown (List.elem_eq_true_of_mem hmem)
      rw [hsync t ht] at hnotin
      intro heq
      exact hnotin (List.mem_map.mpr ⟨it, hit, heq⟩)
  · intro s hs hsown hne hall s' hs' heq
    obtain ⟨t, ht, hft⟩ := List.mem_filterMap.mp hs'
    have hid : s'.id = t.id := by
      by_cases hcond : (t.ownerId == ownerId && t.itemProductIds.contains id) = true
      · rw [if_pos hcond] at hft
        by_cases hempty : (t.items.filter (fun item => item.productId ≠ id)).isEmpty = true
        · rw [if_pos hempty] at hft
          cases hft
        · rw [if_neg hempty] at hft
          injection hft with hft
          rw [← hft]
      · rw [if_neg hcond] at hft
        injection hft with hft
        rw [← hft]
    have hts : t = s := List.inj_on_of_nodup_map hnodup ht hs (hid ▸ heq)
    subst hts
    have hcond : (t.ownerId == ownerId && t.itemProductIds.contains id) = true := by
      obtain ⟨it0, hit0⟩ := List.exists_mem_of_ne_nil t.items hne
      simp only [Bool.and_eq_true, beq_iff_eq]
      refine ⟨hsown, List.elem_eq_true_of_mem ?_⟩
      rw [hsync t ht]
      exact List.mem_map.mpr ⟨it0, hit0, hall it0 hit0⟩
    rw [if_pos hcond] at hft
    have hempty : (t.items.filter (fun item => item.productId ≠ id)).isEmpty = true := by
      rw [List.isEmpty_iff, List.filter_eq_nil_iff]
      intro it hit
      simpa using hall it hit
    rw [if_pos hempty] at hft
    cases hft
  · intro s hs hsown ⟨itm, hitm, hitmeq⟩ ⟨itk, hitk, hitkne⟩
    have hcond : (s.ownerId == ownerId && s.itemProductIds.contains id) = true := by
      simp only [Bool.and_eq_true, beq_iff_eq]
      exact ⟨hsown, List.elem_eq_true_of_mem
        (by rw [hsync s hs]; exact List.mem_map.mpr ⟨itm, hitm, hitmeq⟩)⟩
    have hempty : (s.items.filter (fun item => item.productId ≠ id)).isEmpty = false := by
      rw [List.isEmpty_eq_false_iff_exists_mem]
      exact ⟨itk, List.mem_filter.mpr ⟨hitk, decide_eq_true hitkne⟩⟩
    refine ⟨{ s with
        items := s.items.filter (fun item => item.productId ≠ id),
        itemProductIds := (s.items.filter (fun item => item.productId ≠ id)).map (·.productId),
        updatedAt := now }, ?_, rfl, rfl, rfl, rfl, rfl, rfl, rfl, rfl⟩
    refine List.mem_filterMap.mpr ⟨s, hs, ?_⟩
    rw [if_pos hcond, if_neg (by rw [hempty]; exact Bool.false_ne_true)]

/-- C8 witness: deleting the product referenced by a one-line shipment removes
that shipment entirely, while a two-line shipment keeps its other line and a
fresh timestamp. -/
theorem deleteProduct_cascades_witness :
    (∀ s ∈ [sampleShipA, sampleShipMixed], s.ownerId = "owner1" → s.items ≠ [] →
      (∀ it ∈ s.items, it.productId = "prodP") →
      ∀ s' ∈ (deleteProduct "prodP" "owner1" "2024-03-05T08:00:00.000Z" [sampleProduct]
        [sampleShipA, sampleShipMixed]).2.2, s'.id ≠ s.id) ∧
    (∀ s ∈ [sampleShipA, sampleShipMixed], s.ownerId = "owner1" →
      (∃ it ∈ s.items, it.productId = "prodP") → (∃ it ∈ s.items, it.productId ≠ "prodP") →
      ∃ s' ∈ (deleteProduct "prodP" "owner1" "2024-03-05T08:00:00.000Z" [sampleProduct]
          [sampleShipA, sampleShipMixed]).2.2, s'.id = s.id ∧
        s'.items = s.items.filter (fun it => it.productId ≠ "prodP") ∧
        s'.updatedAt = "2024-03-05T08:00:00.000Z" ∧ s'.sentAt = s.sentAt ∧
        s'.ownerId = s.ownerId ∧ s'.expectedReturnAt = s.expectedReturnAt ∧
        s'.notes = s.notes ∧ s'.createdAt = s.createdAt) :=
  ⟨(deleteProduct_cascades "prodP" "owner1" "2024-03-05T08:00:00.000Z" [sampleProduct]
      [sampleShipA, sampleShipMixed] sampleProduct (by decide) (by decide) (by decide)
      (by decide)).2.2.1,
    (deleteProduct_cascades "prodP" "owner1" "2024-03-05T08:00:00.000Z" [sampleProduct]
      [sampleShipA, sampleShipMixed] sampleProduct (by decide) (by decide) (by decide)
      (by decide)).2.2.2⟩

end Claims

end Lavanderia
